import Mathlib

/-!
# Verification of the chemical-synthesis GraphRAG pipeline

Shallow embedding of `prometheus-project/graph/chemical_graph_rag.py` and
`prometheus-project/graph/llm_rag.py`:

* the RDF knowledge-graph accessors (`objects` / `value`, modelled on the
  rdflib calls the code makes),
* the step-sequence walker `_walk_step_sequence` and record extractor
  `_extract_step_info`,
* the text formatter `TextConverter.sequence_to_text` (Python dict access
  is modelled with an explicit `Except` for `KeyError`),
* material resolution `_extract_target_material` (both the unsorted
  `SynthesisRAG` variant and the length-sorted `LLMSynthesisRAG` variant),
* method enumeration `query_all_synthesis_by_target` and the top-level
  `SynthesisRAG.answer_question`,
* the chemical-formula extractor `extract_chemical_formulas` with its
  candidate regular expression and `_is_valid_formula`,
* the LLM output parsers `_select_method_index` and
  `_classify_synthesis_type` (brace-span extraction plus a JSON reader).
-/

/-! ## Python values

The pipeline passes Python dicts around (step records, method variants,
answer payloads).  `PyVal` models the values that occur; a record/dict is
an association list keeping insertion order, as Python dicts do. -/

inductive PyVal where
  | str : String → PyVal
  | int : Int → PyVal
  | bool : Bool → PyVal
  | none : PyVal
  | list : List PyVal → PyVal
  | dict : List (String × PyVal) → PyVal
deriving Repr

/-- A Python dict (association list in insertion order). -/
abbrev PyDict := List (String × PyVal)

/-- Field lookup in a dict, `d[k]`; a missing key is Python's `KeyError`. -/
def pyGet (d : PyDict) (k : String) : Except String PyVal :=
  match d.find? (fun p => p.1 = k) with
  | some p => .ok p.2
  | Option.none => .error ("KeyError: " ++ k)

/-- Field lookup returning an `Option` (for stating properties). -/
def fieldOf (d : PyDict) (k : String) : Option PyVal :=
  (d.find? (fun p => p.1 = k)).map (·.2)

/-- Python truthiness of the modelled values. -/
def truthy : PyVal → Bool
  | .str s => s ≠ ""
  | .int n => n ≠ 0
  | .bool b => b
  | .none => false
  | .list l => ¬ l.isEmpty
  | .dict d => ¬ d.isEmpty

/-- Rendering a value inside an f-string.  Only strings, ints and `None`
reach f-strings in the embedded code paths. -/
def pyFormat : PyVal → String
  | .str s => s
  | .int n => toString n
  | .bool b => if b then "True" else "False"
  | .none => "None"
  | .list _ => "<list>"
  | .dict _ => "<dict>"

/-! ## The RDF knowledge graph

`ChemicalKnowledgeGraph` wraps an rdflib `Graph`.  The code only uses
`graph.objects(s, p)` (all objects of the triples `(s, p, ·)`),
`graph.value(s, p)` (the first such object or `None`), node equality
(for the visited set), and `str(node)` (the URI or literal text).  The
embedding keeps the node type abstract — `String` for URI-level graphs,
`Nat` for large synthetic graphs — with `toStr` playing `str(·)`. -/

structure KG (ν : Type) where
  triples : List (ν × String × ν)
  toStr : ν → String

variable {ν : Type} [DecidableEq ν]

/-- `graph.objects(s, p)`: objects of all triples `(s, p, o)` in store order. -/
def KG.objects (g : KG ν) (s : ν) (p : String) : List ν :=
  (g.triples.filter (fun t => t.1 = s ∧ t.2.1 = p)).map (·.2.2)

/-- `graph.value(s, p)`: the first object or `None`. -/
def KG.value (g : KG ν) (s : ν) (p : String) : Option ν :=
  (g.objects s p).head?

/-- Predicate names (the `aiton:` / `rdfs:` / `rdf:` namespaces elided). -/
def rdfsLabel : String := "label"

def rdfType : String := "type"

def aitonInorganicMaterial : String := "InorganicMaterial"

def aitonHasSynthesisMethod : String := "hasSynthesisMethod"

def aitonConsistOfStep : String := "consistOfStep"

def aitonNextStep : String := "nextStep"

def aitonUsesPrecursor : String := "usesPrecursor"

def aitonUsesSolvent : String := "usesSolvent"

def aitonPerformedUnder : String := "performedUnder"

def aitonHasTemperature : String := "hasTemperature"

def aitonHasDuration : String := "hasDuration"

/-! ## String helpers

Structural (kernel-computable) versions of the Python string operations
the pipeline uses: `lower`, `strip`, `in` (substring), `replace`,
`split`, and code-point lexicographic comparison (Python's `<` on `str`,
which SPARQL `ORDER BY` and `sorted` also use). -/

/-- Python `s.lower()` (ASCII case, which covers the embedded data). -/
def toLowerS (s : String) : String := String.mk (s.data.map Char.toLower)

/-- Python `s.strip()`. -/
def trimS (s : String) : String :=
  String.mk (((s.data.dropWhile Char.isWhitespace).reverse.dropWhile Char.isWhitespace).reverse)

/-- `needle in hay` on character lists. -/
def listContains (needle : List Char) : List Char → Bool
  | [] => needle.isPrefixOf []
  | c :: rest => needle.isPrefixOf (c :: rest) || listContains needle rest

/-- Python `needle in hay` for strings. -/
def strContains (hay needle : String) : Bool := listContains needle.data hay.data

/-- Python `s.replace(" ", "")`. -/
def removeSpaces (s : String) : String := String.mk (s.data.filter (fun c => c ≠ ' '))

/-- One fuel-indexed pass of Python `s.replace(pat, rep)` (left-to-right,
non-overlapping); `pat` is non-empty at every call site. -/
def replaceAux (pat rep : List Char) : Nat → List Char → List Char
  | 0, cs => cs
  | _ + 1, [] => []
  | fuel + 1, c :: rest =>
    if pat.isPrefixOf (c :: rest) then rep ++ replaceAux pat rep fuel ((c :: rest).drop pat.length)
    else c :: replaceAux pat rep fuel rest

/-- Python `s.replace(pat, rep)`. -/
def replaceS (s pat rep : String) : String :=
  String.mk (replaceAux pat.data rep.data s.data.length s.data)

/-- Python `s.split(sep)` for a single separator character (empty parts kept). -/
def splitOnCharS (sep : Char) : List Char → List (List Char)
  | [] => [[]]
  | c :: rest =>
    if c = sep then [] :: splitOnCharS sep rest
    else
      match splitOnCharS sep rest with
      | [] => [[c]]
      | h :: t => (c :: h) :: t

/-- Code-point lexicographic `≤` on character lists (Python string order). -/
def charsLe : List Char → List Char → Bool
  | [], _ => true
  | _ :: _, [] => false
  | a :: as, b :: bs =>
    if a.toNat < b.toNat then true
    else if b.toNat < a.toNat then false
    else charsLe as bs

/-- Python `a <= b` on strings (code-point lexicographic). -/
def strLeB (a b : String) : Bool := charsLe a.data b.data

/-- The order relation used for sorting string lists. -/
def strLe (a b : String) : Prop := strLeB a b = true

/-- Strict code-point order, for stating sorted-and-deduplicated outputs. -/
def strLt (a b : String) : Prop := strLe a b ∧ a ≠ b

instance : DecidableRel strLe := fun a b => by unfold strLe; infer_instance

instance : DecidableRel strLt := fun a b => by unfold strLt; exact instDecidableAnd

theorem charsLe_total : ∀ a b : List Char, charsLe a b = true ∨ charsLe b a = true := by
  intro a
  induction a with
  | nil => intro b; left; rfl
  | cons x xs ih =>
    intro b
    cases b with
    | nil => right; rfl
    | cons y ys =>
      by_cases h1 : x.toNat < y.toNat
      · left; simp [charsLe, h1]
      · by_cases h2 : y.toNat < x.toNat
        · right; simp [charsLe, h2]
        · rcases ih ys with h | h
          · left; simp [charsLe, h1, h2, h]
          · right; simp [charsLe, h1, h2, h]

theorem charsLe_trans : ∀ a b c : List Char,
    charsLe a b = true → charsLe b c = true → charsLe a c = true := by
  intro a
  induction a with
  | nil => intro b c _ _; rfl
  | cons x xs ih =>
    intro b c hab hbc
    cases b with
    | nil => simp [charsLe] at hab
    | cons y ys =>
      cases c with
      | nil => simp [charsLe] at hbc
      | cons z zs =>
        simp only [charsLe] at hab hbc ⊢
        by_cases hyx1 : y.toNat < x.toNat
        · have hxy1 : ¬ x.toNat < y.toNat := by omega
          simp only [hxy1, hyx1, if_true, if_false] at hab
          exact absurd hab (by simp)
        · by_cases hzy1 : z.toNat < y.toNat
          · have hyz1 : ¬ y.toNat < z.toNat := by omega
            simp only [hyz1, hzy1, if_true, if_false] at hbc
            exact absurd hbc (by simp)
          · by_cases hxy1 : x.toNat < y.toNat
            · have hxz : x.toNat < z.toNat := by omega
              simp [hxz]
            · by_cases hyz1 : y.toNat < z.toNat
              · have hxz : x.toNat < z.toNat := by omega
                simp [hxz]
              · have hxz : ¬ x.toNat < z.toNat := by omega
                have hzx : ¬ z.toNat < x.toNat := by omega
                simp only [hxy1, hyx1, if_false] at hab
                simp only [hyz1, hzy1, if_false] at hbc
                simp only [hxz, hzx, if_false]
                exact ih ys zs hab hbc

theorem charsLe_antisymm : ∀ a b : List Char,
    charsLe a b = true → charsLe b a = true → a = b := by
  intro a
  induction a with
  | nil =>
    intro b _ hba
    cases b with
    | nil => rfl
    | cons y ys => simp [charsLe] at hba
  | cons x xs ih =>
    intro b hab hba
    cases b with
    | nil => simp [charsLe] at hab
    | cons y ys =>
      simp only [charsLe] at hab hba
      by_cases hxy1 : x.toNat < y.toNat
      · have hyx1 : ¬ y.toNat < x.toNat := by omega
        simp only [hxy1, hyx1, if_true, if_false] at hba
        exact absurd hba (by simp)
      · by_cases hyx1 : y.toNat < x.toNat
        · simp only [hxy1, hyx1, if_true, if_false] at hab
          exact absurd hab (by simp)
        · simp only [hxy1, hyx1, if_false] at hab hba
          have hxy : x = y := by
            have hv : x.toNat = y.toNat := by omega
            exact Char.eq_of_val_eq (UInt32.ext hv)
          rw [hxy, ih ys hab hba]

instance : IsTotal String strLe :=
  ⟨fun a b => charsLe_total a.data b.data⟩

instance : IsTrans String strLe :=
  ⟨fun a b c => charsLe_trans a.data b.data c.data⟩

theorem strLe_antisymm {a b : String} (h1 : strLe a b) (h2 : strLe b a) : a = b := by
  cases a; cases b
  exact congrArg String.mk (charsLe_antisymm _ _ h1 h2)

/-! ## Step records: `_extract_step_info` -/

/-- `re.sub(r"^step_step_\d+\.\s*", "", label)`: drop the redundant
`step_step_<n>. ` marker when present, else leave the label unchanged. -/
def dropStepMarker (s : String) : String :=
  let cs := s.data
  if cs.take 10 = "step_step_".data then
    let rest := cs.drop 10
    let digs := rest.takeWhile Char.isDigit
    if digs.isEmpty then s
    else
      match rest.drop digs.length with
      | '.' :: rest2 => String.mk (rest2.dropWhile Char.isWhitespace)
      | _ => s
  else s

/-- Order-preserving de-duplication, as the Python `seen`-set loop does:
keep the first occurrence of each element. -/
def dedupFirst (seen : List String) : List String → List String
  | [] => []
  | x :: xs =>
    if x ∈ seen then dedupFirst seen xs else x :: dedupFirst (x :: seen) xs

/-- `str(node) if node else None` for an optional label node. -/
def optNodeStr (g : KG ν) (o : Option ν) : PyVal :=
  match o with
  | some n => .str (g.toStr n)
  | Option.none => .none

/-- `ChemicalKnowledgeGraph._extract_step_info`: `None` when the step has
no label; otherwise a dict with the 1-based position, the joined action
phrases (marker-stripped, trimmed, lowercased, de-duplicated, first 6),
and the precursor / solvent / condition fields. -/
def extract_step_info (g : KG ν) (stepUri : ν) (stepNum : Nat) : Option PyDict :=
  let labels := (g.objects stepUri rdfsLabel).map g.toStr
  if labels.isEmpty then Option.none
  else
    let verbs := labels.filterMap (fun lb =>
      let v := trimS (dropStepMarker lb)
      if v = "" then Option.none else some (toLowerS v))
    let verbsUnique := dedupFirst [] verbs
    let action := String.intercalate ", " (verbsUnique.take 6)
    let precursor :=
      match g.value stepUri aitonUsesPrecursor with
      | some p => optNodeStr g (g.value p rdfsLabel)
      | Option.none => PyVal.none
    let solvent :=
      match g.value stepUri aitonUsesSolvent with
      | some sv => optNodeStr g (g.value sv rdfsLabel)
      | Option.none => PyVal.none
    let condition :=
      match g.value stepUri aitonPerformedUnder with
      | some c =>
        let temp := g.value c aitonHasTemperature
        let dur := g.value c aitonHasDuration
        if temp.isSome || dur.isSome then
          PyVal.dict [("temperature", optNodeStr g temp),
                      ("duration", optNodeStr g dur)]
        else PyVal.none
      | Option.none => PyVal.none
    some [("step_number", .int stepNum), ("action", .str action),
          ("precursor", precursor), ("solvent", solvent),
          ("condition", condition)]

/-! ## The step-sequence walker: `_walk_step_sequence`

The Python loop runs `while current_step and step_num <= max_steps`,
breaking on a revisited step.  The remaining iteration budget
`max_steps - step_num + 1` is the structural fuel. -/

/-- Loop body of `_walk_step_sequence`; `fuel` is the number of
iterations the `step_num <= max_steps` guard still allows. -/
def walkAux (g : KG ν) : Nat → Option ν → Nat → List ν → List PyDict
  | 0, _, _, _ => []
  | _ + 1, Option.none, _, _ => []
  | fuel + 1, some c, stepNum, visited =>
    if c ∈ visited then []
    else
      let rest := walkAux g fuel (g.value c aitonNextStep) (stepNum + 1) (c :: visited)
      match extract_step_info g c stepNum with
      | Option.none => rest
      | some info => info :: rest

/-- `ChemicalKnowledgeGraph._walk_step_sequence(first_step, max_steps=50)`. -/
def walk_step_sequence (g : KG ν) (firstStep : ν) (maxSteps : Nat := 50) : List PyDict :=
  walkAux g maxSteps (some firstStep) 1 []

/-- The step identities the same loop processes, in order (the nodes added
to its `visited` set). -/
def walkNodesAux (g : KG ν) : Nat → Option ν → List ν → List ν
  | 0, _, _ => []
  | _ + 1, Option.none, _ => []
  | fuel + 1, some c, visited =>
    if c ∈ visited then []
    else c :: walkNodesAux g fuel (g.value c aitonNextStep) (c :: visited)

/-- Step identities processed by `walk_step_sequence`. -/
def walkNodes (g : KG ν) (firstStep : ν) (maxSteps : Nat := 50) : List ν :=
  walkNodesAux g maxSteps (some firstStep) []

/-- The `step_number` field of a step record. -/
def recNum (d : PyDict) : Int :=
  match fieldOf d "step_number" with
  | some (.int k) => k
  | _ => 0

/-- The `step_number` fields of a record list. -/
def stepNums (l : List PyDict) : List Int := l.map recNum

/-! Basic walker lemmas (used by several claims). -/

theorem extract_step_info_num (g : KG ν) (c : ν) (n : Nat) (d : PyDict)
    (h : extract_step_info g c n = some d) : recNum d = (n : Int) := by
  unfold extract_step_info at h
  by_cases hl : ((g.objects c rdfsLabel).map g.toStr).isEmpty
  · simp [hl] at h
  · simp [hl] at h
    subst h
    rfl

theorem walkAux_length_le (g : KG ν) (fuel : Nat) :
    ∀ (cur : Option ν) (n : Nat) (visited : List ν),
      (walkAux g fuel cur n visited).length ≤ fuel := by
  induction fuel with
  | zero => intro cur n visited; simp [walkAux]
  | succ fuel ih =>
    intro cur n visited
    match cur with
    | Option.none => simp [walkAux]
    | some c =>
      rw [walkAux]
      by_cases hv : c ∈ visited
      · simp [hv]
      · simp only [hv, if_false]
        cases hE : extract_step_info g c n with
        | none => exact le_trans (ih _ _ _) (Nat.le_succ _)
        | some d =>
          simpa using Nat.succ_le_succ (ih (g.value c aitonNextStep) (n + 1) (c :: visited))

theorem walkAux_nums_bounds (g : KG ν) (fuel : Nat) :
    ∀ (cur : Option ν) (n : Nat) (visited : List ν),
      (stepNums (walkAux g fuel cur n visited)).Pairwise (· < ·) ∧
      ∀ k ∈ stepNums (walkAux g fuel cur n visited), (n : Int) ≤ k := by
  induction fuel with
  | zero => intro cur n visited; simp [walkAux, stepNums]
  | succ fuel ih =>
    intro cur n visited
    match cur with
    | Option.none => simp [walkAux, stepNums]
    | some c =>
      rw [walkAux]
      by_cases hv : c ∈ visited
      · simp [hv, stepNums]
      · simp only [hv, if_false]
        obtain ⟨ihp, ihb⟩ := ih (g.value c aitonNextStep) (n + 1) (c :: visited)
        cases hE : extract_step_info g c n with
        | none =>
          refine ⟨ihp, fun k hk => ?_⟩
          have := ihb k hk
          omega
        | some d =>
          have hd : recNum d = (n : Int) := extract_step_info_num g c n d hE
          constructor
          · rw [stepNums, List.map_cons, List.pairwise_cons]
            refine ⟨fun k hk => ?_, ihp⟩
            have := ihb k hk
            rw [hd]; omega
          · intro k hk
            rw [stepNums, List.map_cons] at hk
            rcases List.mem_cons.mp hk with rfl | hk
            · rw [hd]
            · have := ihb k hk; omega

theorem walkNodesAux_nodup (g : KG ν) (fuel : Nat) :
    ∀ (cur : Option ν) (visited : List ν),
      (walkNodesAux g fuel cur visited).Nodup ∧
      ∀ x ∈ walkNodesAux g fuel cur visited, x ∉ visited := by
  induction fuel with
  | zero => intro cur visited; simp [walkNodesAux]
  | succ fuel ih =>
    intro cur visited
    match cur with
    | Option.none => simp [walkNodesAux]
    | some c =>
      rw [walkNodesAux]
      by_cases hv : c ∈ visited
      · simp [hv]
      · simp only [hv, if_false]
        obtain ⟨ihn, ihm⟩ := ih (g.value c aitonNextStep) (c :: visited)
        constructor
        · refine List.nodup_cons.mpr ⟨fun hc => ?_, ihn⟩
          exact (ihm c hc) (List.mem_cons_self c visited)
        · intro x hx
          rcases List.mem_cons.mp hx with rfl | hx
          · exact hv
          · intro hxv
            exact (ihm x hx) (List.mem_cons_of_mem c hxv)

/-! ## Text conversion: `TextConverter.sequence_to_text`

The Python function indexes each element with `step_info["step_number"]`
etc.; dict indexing is modelled in `Except`, so a missing key is a
`KeyError` value rather than a silent default. -/

/-- Render one step line of `sequence_to_text`. -/
def stepLine (stepInfo : PyDict) : Except String String := do
  let stepNum ← pyGet stepInfo "step_number"
  let action ← pyGet stepInfo "action"
  let line := "Step " ++ pyFormat stepNum ++ ": " ++ pyFormat action
  let prec ← pyGet stepInfo "precursor"
  let line := if truthy prec then line ++ "\n  └─ 전구체: " ++ pyFormat prec else line
  let solv ← pyGet stepInfo "solvent"
  let line := if truthy solv then line ++ "\n  └─ 용매: " ++ pyFormat solv else line
  let cond ← pyGet stepInfo "condition"
  if truthy cond then
    match cond with
    | .dict condD => do
      let temp ← pyGet condD "temperature"
      let line := if truthy temp then line ++ "\n  └─ 온도: " ++ pyFormat temp ++ "°C" else line
      let dur ← pyGet condD "duration"
      if truthy dur then
        match dur with
        | .str s => pure (line ++ "\n  └─ 시간: " ++ replaceS (replaceS s "PT" "") "H" "시간")
        | _ => .error "AttributeError: replace"
      else pure line
    | _ => .error "TypeError: not subscriptable"
  else pure line

/-- `TextConverter.sequence_to_text(sequence, material_name)`. -/
def sequence_to_text (sequence : List PyDict) (materialName : String := "") :
    Except String String := do
  let title :=
    if materialName ≠ "" then "=== " ++ materialName ++ " 합성 절차 ==="
    else "=== 합성 절차 ==="
  let lines ← sequence.mapM stepLine
  pure (String.intercalate "\n\n" ((title ++ "\n") :: lines))

/-! ## Material resolution: `_extract_target_material`

`SynthesisRAG` iterates `self.available_materials` as loaded (the SPARQL
`ORDER BY` gives lexicographic order); `LLMSynthesisRAG` first sorts the
labels by length, longest first. -/

/-- Shared matching loop: the first label contained in the lowercased
question either exactly or after removing all spaces from both. -/
def resolveMaterial (materials : List String) (question : String) : Option String :=
  let questionLower := toLowerS question
  materials.find? (fun material =>
    let materialLower := toLowerS material
    strContains questionLower materialLower ||
      strContains (removeSpaces questionLower) (removeSpaces materialLower))

/-- `SynthesisRAG._extract_target_material`: no sorting. -/
def synthesisRag_extract_target_material (availableMaterials : List String)
    (question : String) : Option String :=
  resolveMaterial availableMaterials question

/-- Sort key `len`, descending (`sorted(materials, key=len, reverse=True)`). -/
def lenDesc (a b : String) : Prop := b.length ≤ a.length

instance : DecidableRel lenDesc := fun a b => Nat.decLe b.length a.length

instance : IsTotal String lenDesc := ⟨fun a b => Nat.le_total b.length a.length⟩

instance : IsTrans String lenDesc := ⟨fun _ _ _ h1 h2 => Nat.le_trans h2 h1⟩

/-- `LLMSynthesisRAG._extract_target_material`: longest labels first. -/
def llmRag_extract_target_material (availableMaterials : List String)
    (question : String) : Option String :=
  resolveMaterial (List.insertionSort lenDesc availableMaterials) question

/-! ## Graph queries: materials, methods, variants -/

/-- Subjects typed `aiton:InorganicMaterial`. -/
def typedMaterials (g : KG String) : List String :=
  (g.triples.filter (fun t => t.2.1 = rdfType ∧ t.2.2 = aitonInorganicMaterial)).map (·.1)

/-- `list_all_materials`: the distinct material labels, sorted ascending
(SPARQL `SELECT DISTINCT ... ORDER BY ?materialLabel`). -/
def list_all_materials (g : KG String) : List String :=
  let labels := (typedMaterials g).flatMap (fun m => (g.objects m rdfsLabel).map g.toStr)
  List.insertionSort strLe (dedupFirst [] labels)

/-- `_find_material_uri`: the first material whose label equals the
name case-insensitively (`FILTER(LCASE(STR(?label)) = LCASE(name))`,
`LIMIT 1`). -/
def find_material_uri (g : KG String) (materialName : String) : Option String :=
  (typedMaterials g).find? (fun m =>
    (g.objects m rdfsLabel).any (fun l => toLowerS (g.toStr l) = toLowerS materialName))

/-- The method's display label: `str(label)` when the label node is
truthy, else the fallback `method_<mi>`. -/
def method_display_label (g : KG String) (mi : Nat) (methodUri : String) : String :=
  match g.value methodUri rdfsLabel with
  | some l => if g.toStr l = "" then "method_" ++ toString mi else g.toStr l
  | Option.none => "method_" ++ toString mi

/-- The method-variant dicts built for one `method_uri` (1-based index
`mi` over the method list): one dict per starting step, or a note dict
when the method has no `consistOfStep`. -/
def methodVariants (g : KG String) (mi : Nat) (methodUri : String) : List PyDict :=
  let methodLabel := method_display_label g mi methodUri
  let firstSteps := g.objects methodUri aitonConsistOfStep
  if firstSteps.isEmpty then
    [[("method_uri", .str methodUri), ("method_label", .str methodLabel),
      ("sequence", .list []), ("note", .str "no consistOfStep")]]
  else
    firstSteps.enum.map (fun p =>
      [("method_uri", .str methodUri),
       ("method_label", .str (if firstSteps.length = 1 then methodLabel
          else methodLabel ++ " (start#" ++ toString (p.1 + 1) ++ ")")),
       ("first_step_uri", .str p.2),
       ("sequence", .list ((walk_step_sequence g p.2 50).map PyVal.dict))])

/-- `query_all_synthesis_by_target`: `None` when the material or its
methods are missing, else every method variant. -/
def query_all_synthesis_by_target (g : KG String) (targetMaterial : String) :
    Option (List PyDict) :=
  match find_material_uri g targetMaterial with
  | Option.none => Option.none
  | some materialUri =>
    let methodUris := g.objects materialUri aitonHasSynthesisMethod
    if methodUris.isEmpty then Option.none
    else some (methodUris.enum.flatMap (fun p => methodVariants g (p.1 + 1) p.2))

/-! ## `SynthesisRAG.answer_question`

The terminal payloads are dicts; the success branch builds its context
with `sequence_to_text(methods, ...)` — note that `methods` here is the
method-variant list, not a step-record list. -/

/-- `SynthesisRAG._generate_answer`. -/
def generate_answer (context material : String) : String :=
  "'" ++ material ++ "'의 합성법 정보입니다:\n" ++ "\n" ++ context

/-- `SynthesisRAG.answer_question`.  A `.error` result models an
uncaught Python exception escaping to the caller. -/
def answer_question (g : KG String) (question : String) : Except String PyDict :=
  let availableMaterials := list_all_materials g
  match synthesisRag_extract_target_material availableMaterials question with
  | Option.none =>
    .ok [("answer", .str "질문에서 타겟 물질을 찾을 수 없습니다. 물질명을 명확히 입력해주세요."),
         ("context", .list []), ("confidence", .str "none"),
         ("available_materials", .list ((availableMaterials.take 20).map .str))]
  | some targetMaterial =>
    match query_all_synthesis_by_target g targetMaterial with
    | Option.none =>
      .ok [("answer", .str ("'" ++ targetMaterial ++ "'의 합성법을 찾을 수 없습니다.")),
           ("context", .list []), ("confidence", .str "none"),
           ("available_materials", .list ((availableMaterials.take 20).map .str))]
    | some methods =>
      if methods.isEmpty then
        .ok [("answer", .str ("'" ++ targetMaterial ++ "'의 합성법을 찾을 수 없습니다.")),
             ("context", .list []), ("confidence", .str "none"),
             ("available_materials", .list ((availableMaterials.take 20).map .str))]
      else do
        let contextText ← sequence_to_text methods targetMaterial
        pure [("answer", .str (generate_answer contextText targetMaterial)),
              ("context", .list [.str contextText]), ("confidence", .str "high"),
              ("target_material", .str targetMaterial)]

/-! ## Concrete graphs used as test inputs -/

set_option maxRecDepth 100000

/-- Two materials whose labels load in lexicographic order, `Fe` first. -/
def feLiKG : KG String :=
  { triples := [("uriFe", "type", "InorganicMaterial"), ("uriFe", "label", "Fe"),
                ("uriLFP", "type", "InorganicMaterial"), ("uriLFP", "label", "LiFePO4")],
    toStr := id }

/-- A two-step cycle `A → B → A`, both steps labelled. -/
def cycleKG : KG String :=
  { triples := [("A", "nextStep", "B"), ("B", "nextStep", "A"),
                ("A", "label", "mix"), ("B", "label", "dry")],
    toStr := id }

/-- A synthetic linear chain of 1000 labelled, linked steps (nodes are
`Nat`s; label literals are the nodes `5000 + i`). -/
def chainKG : KG Nat :=
  { triples := ((List.range 999).map (fun i => (i, "nextStep", i + 1))) ++
               ((List.range 1000).map (fun i => (i, "label", 5000 + i))),
    toStr := fun n => if 5000 ≤ n then "do" else "s" }

/-- A four-step chain `A → B → C → D` whose second step has no label. -/
def gapChainKG : KG String :=
  { triples := [("A", "nextStep", "B"), ("B", "nextStep", "C"), ("C", "nextStep", "D"),
                ("A", "label", "weigh"), ("C", "label", "stir"), ("D", "label", "dry")],
    toStr := id }

/-- One material `NiO` with one method and one labelled step. -/
def nioKG : KG String :=
  { triples := [("uriNiO", "type", "InorganicMaterial"), ("uriNiO", "label", "NiO"),
                ("uriNiO", "hasSynthesisMethod", "M1"), ("M1", "label", "precipitation"),
                ("M1", "consistOfStep", "S1"), ("S1", "label", "step_step_1. mix")],
    toStr := id }

/-- A single step whose label carries the redundant marker and a
capitalised action phrase. -/
def mixKG : KG String :=
  { triples := [("S", "label", "step_step_1. Mix")], toStr := id }

/-- A method with two `consistOfStep` starting steps. -/
def twoStartKG : KG String :=
  { triples := [("M", "label", "Sol-gel"), ("M", "consistOfStep", "S1"),
                ("M", "consistOfStep", "S2"), ("S1", "label", "grind"),
                ("S2", "label", "heat")],
    toStr := id }

/-- The `action` string of an extracted step record. -/
def getAction (o : Option PyDict) : Option String :=
  match o with
  | some d =>
    match fieldOf d "action" with
    | some (.str s) => some s
    | _ => Option.none
  | Option.none => Option.none

/-! ## Claim C1 — material resolution precedence -/

/-- Claim C1: resolution is claimed to consider labels longest-first for
every resolver.  The `LLMSynthesisRAG` resolver does sort by length
descending and resolves "LiFePO4 synthesis route" to `LiFePO4`; but the
`SynthesisRAG` resolver iterates the loaded (lexicographic) label list
unsorted, and on the same input returns `Fe` (a substring of
"lifepo4"), contradicting the claim for that resolver. -/
theorem claim1_resolution_precedence :
    list_all_materials feLiKG = ["Fe", "LiFePO4"] ∧
    synthesisRag_extract_target_material (list_all_materials feLiKG)
        "LiFePO4 synthesis route" = some "Fe" ∧
    llmRag_extract_target_material (list_all_materials feLiKG)
        "LiFePO4 synthesis route" = some "LiFePO4" ∧
    (∀ materials : List String,
        (List.insertionSort lenDesc materials).Sorted lenDesc) :=
  ⟨by decide, by decide, by decide, fun m => List.sorted_insertionSort lenDesc m⟩

/-! ## Claim C2 — walker termination, bound, and duplicate freedom -/

/-- Claim C2: for every graph and starting step the walk is a total
function whose output has at most `maxSteps` records with pairwise
distinct (strictly increasing) step numbers, and whose processed step
identities are pairwise distinct; the `A → B → A` cycle yields at most 2
records and the 1000-step labelled chain yields exactly 50. -/
theorem claim2_walk_bounded_and_duplicate_free :
    (∀ (ν : Type) [DecidableEq ν] (g : KG ν) (first : ν) (maxSteps : Nat),
        (walk_step_sequence g first maxSteps).length ≤ maxSteps ∧
        (stepNums (walk_step_sequence g first maxSteps)).Pairwise (· < ·) ∧
        (walkNodes g first maxSteps).Nodup) ∧
    (walk_step_sequence cycleKG "A" 50).length ≤ 2 ∧
    (walk_step_sequence chainKG 0 50).length = 50 :=
  ⟨fun ν _ g first maxSteps =>
      ⟨walkAux_length_le g maxSteps (some first) 1 [],
       (walkAux_nums_bounds g maxSteps (some first) 1 []).1,
       (walkNodesAux_nodup g maxSteps (some first) []).1⟩,
   by decide, by decide⟩

/-! ## Claim C3 — `answer_question` structured payloads -/

/-- Claim C3 (failing evaluation): when the material resolves and
methods are found, `answer_question` passes the method-variant dicts
(which have no `step_number` key) to `sequence_to_text`, so the
success path raises `KeyError` instead of returning a payload; the
no-material path does return a structured payload. -/
theorem claim3_answer_question_keyerror :
    answer_question nioKG "NiO 합성법 알려줘" = .error "KeyError: step_number" ∧
    answer_question nioKG "물이 뭐야" =
      .ok [("answer", .str "질문에서 타겟 물질을 찾을 수 없습니다. 물질명을 명확히 입력해주세요."),
           ("context", .list []), ("confidence", .str "none"),
           ("available_materials", .list [.str "NiO"])] :=
  ⟨by rfl, by rfl⟩

/-! ## Claim C6 — step-record action phrases -/

/-- Claim C6 (counterexample): the claim says the de-duplicated action
phrases keep their case; the code lowercases them, so the label
`step_step_1. Mix` yields the action `mix`, not `Mix`. -/
theorem claim6_counterexample_case_lost :
    getAction (extract_step_info mixKG "S" 1) = some "mix" ∧ "mix" ≠ "Mix" :=
  ⟨by rfl, by decide⟩

/-- The action string the amended claim describes: marker stripped,
trimmed, empty phrases dropped, each phrase lowercased, de-duplicated
keeping first occurrences, first 6 joined with `", "`. -/
def specStepAction (labels : List String) : String :=
  String.intercalate ", "
    ((dedupFirst [] (labels.filterMap (fun lb =>
        let v := trimS (dropStepMarker lb)
        if v = "" then Option.none else some (toLowerS v)))).take 6)

/-- Claim C6 (amended): for every step with at least one label the
record's action is exactly the lowercased, order-preserving
de-duplicated join of at most 6 marker-stripped phrases. -/
theorem claim6_amended_action (g : KG ν) (s : ν) (n : Nat)
    (h : g.objects s rdfsLabel ≠ []) :
    ∃ d, extract_step_info g s n = some d ∧
      fieldOf d "action" =
        some (.str (specStepAction ((g.objects s rdfsLabel).map g.toStr))) := by
  cases hobj : g.objects s rdfsLabel with
  | nil => exact absurd hobj h
  | cons x xs =>
    unfold extract_step_info
    rw [hobj]
    exact ⟨_, rfl, rfl⟩

/-- Witness for the amended C6 at the concrete one-label step. -/
theorem claim6_amended_action_witness :
    ∃ d, extract_step_info mixKG "S" 1 = some d ∧
      fieldOf d "action" =
        some (.str (specStepAction ((mixKG.objects "S" rdfsLabel).map mixKG.toStr))) :=
  claim6_amended_action mixKG "S" 1 (by decide)

/-! ## Claim C7 — one variant per starting step -/

/-- Claim C7: for every method with more than one starting step
(labelled or not), enumeration yields exactly one variant dict per
`consistOfStep` edge, and the `i`-th variant carries the same method
identity, the method's display label with variant index `i + 1`
appended, the `i`-th starting step, and the sequence obtained by
walking that start independently (every `walk_step_sequence` call
begins with a fresh empty visited set by definition). -/
theorem claim7_variant_per_start (g : KG String) (mi : Nat) (methodUri : String)
    (hmulti : 1 < (g.objects methodUri aitonConsistOfStep).length) :
    (methodVariants g mi methodUri).length =
        (g.objects methodUri aitonConsistOfStep).length ∧
    ∀ (i : Nat) (s : String),
      (g.objects methodUri aitonConsistOfStep)[i]? = some s →
      (methodVariants g mi methodUri)[i]? =
        some [("method_uri", .str methodUri),
              ("method_label",
                .str (method_display_label g mi methodUri ++
                  " (start#" ++ toString (i + 1) ++ ")")),
              ("first_step_uri", .str s),
              ("sequence", .list ((walk_step_sequence g s 50).map PyVal.dict))] := by
  have hne : (g.objects methodUri aitonConsistOfStep).isEmpty = false := by
    cases h : g.objects methodUri aitonConsistOfStep with
    | nil => rw [h] at hmulti; simp at hmulti
    | cons a l => rfl
  have h1 : ¬ (g.objects methodUri aitonConsistOfStep).length = 1 := by omega
  unfold methodVariants
  simp only [hne, Bool.false_eq_true, if_false]
  constructor
  · simp
  · intro i s hs
    rw [List.getElem?_map, List.getElem?_enum, hs]
    simp only [h1, if_false]
    rfl

/-- Witness for C7 at a concrete method with two starting steps. -/
theorem claim7_variant_per_start_witness :
    (methodVariants twoStartKG 1 "M").length = 2 ∧
    (methodVariants twoStartKG 1 "M")[0]? =
      some [("method_uri", .str "M"), ("method_label", .str "Sol-gel (start#1)"),
            ("first_step_uri", .str "S1"),
            ("sequence", .list ((walk_step_sequence twoStartKG "S1" 50).map PyVal.dict))] ∧
    (methodVariants twoStartKG 1 "M")[1]? =
      some [("method_uri", .str "M"), ("method_label", .str "Sol-gel (start#2)"),
            ("first_step_uri", .str "S2"),
            ("sequence", .list ((walk_step_sequence twoStartKG "S2" 50).map PyVal.dict))] :=
  ⟨(claim7_variant_per_start twoStartKG 1 "M" (by decide)).1,
   (claim7_variant_per_start twoStartKG 1 "M" (by decide)).2 0 "S1" (by rfl),
   (claim7_variant_per_start twoStartKG 1 "M" (by decide)).2 1 "S2" (by rfl)⟩

/-! ## Claim C9 — formatter determinism -/

/-- Claim C9: `sequence_to_text` is a pure function of its inputs, so
two invocations on the same step sequence and material name yield
byte-identical text. -/
theorem claim9_formatting_deterministic :
    ∀ (sequence : List PyDict) (materialName : String),
      sequence_to_text sequence materialName = sequence_to_text sequence materialName :=
  fun _ _ => rfl

/-! ## Claim C10 — unlabeled steps advance the counter -/

/-- Claim C10: step numbers of the returned records are strictly
increasing for every graph; an unlabeled step produces no record but
still advances the position counter (records `1, 3, 4` on a chain whose
second step is unlabeled) and still consumes the `maxSteps` budget
(with `maxSteps = 3` the fourth step is never reached). -/
theorem claim10_unlabeled_steps_counted :
    (∀ (ν : Type) [DecidableEq ν] (g : KG ν) (first : ν) (maxSteps : Nat),
        (stepNums (walk_step_sequence g first maxSteps)).Pairwise (· < ·)) ∧
    stepNums (walk_step_sequence gapChainKG "A" 50) = [1, 3, 4] ∧
    stepNums (walk_step_sequence gapChainKG "A" 3) = [1, 3] :=
  ⟨fun ν _ g first maxSteps => (walkAux_nums_bounds g maxSteps (some first) 1 []).1,
   by decide, by decide⟩

/-! ## Chemical-formula extraction

`_CANDIDATE_RE` is a backtracking regular expression; the embedding is a
direct backtracking matcher in continuation style (alternatives tried in
the regex's preference order, greedy pieces longest-first), specialised
to the pattern

```
(?<![A-Za-z0-9])
( (?:[A-Z][a-z]?\d* | \([A-Za-z0-9]+\)\d*)+
  (?:(?:[·.]\d*)? (?:[A-Z][a-z]?\d*|\([A-Za-z0-9]+\)\d*)+)*
  (?:\s*(?:\d*[+-]|[+-]\d*))? )
(?![A-Za-z0-9])
```
-/

/-- A matcher continuation: given the unconsumed input, succeed with the
final rest or fail (forcing backtracking). -/
abbrev MK := List Char → Option (List Char)

/-- Greedy `X{0..j}` where each step drops one char: try dropping `j`
chars first, then fewer. -/
def tryDrops (cs : List Char) : Nat → MK → Option (List Char)
  | 0, k => k cs
  | j + 1, k =>
    match k (cs.drop (j + 1)) with
    | some r => some r
    | Option.none => tryDrops cs j k

/-- Greedy `\d*`. -/
def matchDigits (cs : List Char) (k : MK) : Option (List Char) :=
  tryDrops cs (cs.takeWhile Char.isDigit).length k

/-- Greedy `\s*`. -/
def matchSpaces (cs : List Char) (k : MK) : Option (List Char) :=
  tryDrops cs (cs.takeWhile Char.isWhitespace).length k

/-- `[A-Z][a-z]?\d*` (optional lowercase greedy, digits greedy). -/
def matchElemTok (cs : List Char) (k : MK) : Option (List Char) :=
  match cs with
  | [] => Option.none
  | c :: rest =>
    if c.isUpper then
      match rest with
      | d :: rest2 =>
        if d.isLower then
          match matchDigits rest2 k with
          | some r => some r
          | Option.none => matchDigits rest k
        else matchDigits rest k
      | [] => matchDigits rest k
    else Option.none

/-- `\([A-Za-z0-9]+\)\d*` (the inner run is maximal since `)` is not
alphanumeric). -/
def matchParenTok (cs : List Char) (k : MK) : Option (List Char) :=
  match cs with
  | '(' :: rest =>
    let run := rest.takeWhile Char.isAlphanum
    if run.isEmpty then Option.none
    else
      match rest.drop run.length with
      | ')' :: rest2 => matchDigits rest2 k
      | _ => Option.none
  | _ => Option.none

/-- One unit: element token, else parenthesised token. -/
def matchUnit (cs : List Char) (k : MK) : Option (List Char) :=
  match matchElemTok cs k with
  | some r => some r
  | Option.none => matchParenTok cs k

/-- `unit+`, greedy (prefer consuming another unit). -/
def matchUnits : Nat → List Char → MK → Option (List Char)
  | 0, _, _ => Option.none
  | fuel + 1, cs, k =>
    matchUnit cs (fun rest =>
      match matchUnits fuel rest k with
      | some r => some r
      | Option.none => k rest)

/-- `[·.]\d*`. -/
def matchSepTok (cs : List Char) (k : MK) : Option (List Char) :=
  match cs with
  | c :: rest => if c = '·' || c = '.' then matchDigits rest k else Option.none
  | [] => Option.none

/-- One extension group `(?:[·.]\d*)? unit+` (separator-present first). -/
def matchExtIter (fuel : Nat) (cs : List Char) (k : MK) : Option (List Char) :=
  match matchSepTok cs (fun r => matchUnits fuel r k) with
  | some r => some r
  | Option.none => matchUnits fuel cs k

/-- `((?:[·.]\d*)? unit+)*`, greedy. -/
def matchExt : Nat → List Char → MK → Option (List Char)
  | 0, cs, k => k cs
  | fuel + 1, cs, k =>
    match matchExtIter (fuel + 1) cs (fun r => matchExt fuel r k) with
    | some r => some r
    | Option.none => k cs

/-- `(?:\s*(?:\d*[+-]|[+-]\d*))?` (present preferred; `\d*[+-]` first). -/
def matchChargeTok (cs : List Char) (k : MK) : Option (List Char) :=
  let present :=
    matchSpaces cs (fun r =>
      match matchDigits r (fun r2 =>
        match r2 with
        | c :: rest => if c = '+' || c = '-' then k rest else Option.none
        | [] => Option.none) with
      | some r2 => some r2
      | Option.none =>
        match r with
        | c :: rest => if c = '+' || c = '-' then matchDigits rest k else Option.none
        | [] => Option.none)
  match present with
  | some r => some r
  | Option.none => k cs

/-- Try the whole pattern (with its trailing lookahead) at the head of
`cs`; return the unconsumed rest on success. -/
def matchFormulaAt (cs : List Char) : Option (List Char) :=
  matchUnits (cs.length + 1) cs (fun r1 =>
    matchExt (r1.length + 1) r1 (fun r2 =>
      matchChargeTok r2 (fun r3 =>
        match r3 with
        | [] => some []
        | c :: _ => if c.isAlphanum then Option.none else some r3)))

/-- `finditer`: scan left to right, honouring the negative lookbehind
(`prevAlnum`), taking non-overlapping leftmost matches. -/
def scanFormulas : Nat → List Char → Bool → List String
  | 0, _, _ => []
  | _ + 1, [], _ => []
  | fuel + 1, c :: rest, prevAlnum =>
    if prevAlnum then scanFormulas fuel rest c.isAlphanum
    else
      match matchFormulaAt (c :: rest) with
      | some r =>
        let m := (c :: rest).take ((c :: rest).length - r.length)
        let lastAlnum := match m.getLast? with
          | some l => l.isAlphanum
          | Option.none => false
        String.mk m :: scanFormulas fuel r lastAlnum
      | Option.none => scanFormulas fuel rest c.isAlphanum

/-- `_normalize_formula`: strip, drop all whitespace, `.` → `·`. -/
def normalize_formula (s : String) : String :=
  let t := (trimS s).data.filter (fun c => ¬ c.isWhitespace)
  String.mk (t.map (fun c => if c = '.' then '·' else c))

/-- Does this suffix entirely match `\d*[+-]` or `[+-]\d*`? -/
def isChargeShape (cs : List Char) : Bool :=
  match cs with
  | [] => false
  | c :: rest =>
    (match cs.getLast? with
     | some lastC =>
       (lastC = '+' || lastC = '-') && (cs.dropLast.all Char.isDigit)
     | Option.none => false) ||
    ((c = '+' || c = '-') && rest.all Char.isDigit)

/-- `_strip_charge`: remove the leftmost `(?:\d*[+-]|[+-]\d*)$` match. -/
def strip_charge (s : String) : String :=
  let cs := s.data
  match (List.range cs.length).find? (fun i => isChargeShape (cs.drop i)) with
  | some i => String.mk (cs.take i)
  | Option.none => s

/-- The 118 element symbols of `_ELEMENT_SYMBOLS`. -/
def elementSymbols : List String :=
  ["H", "He", "Li", "Be", "B", "C", "N", "O", "F", "Ne",
   "Na", "Mg", "Al", "Si", "P", "S", "Cl", "Ar",
   "K", "Ca", "Sc", "Ti", "V", "Cr", "Mn", "Fe", "Co", "Ni", "Cu", "Zn",
   "Ga", "Ge", "As", "Se", "Br", "Kr",
   "Rb", "Sr", "Y", "Zr", "Nb", "Mo", "Tc", "Ru", "Rh", "Pd", "Ag", "Cd",
   "In", "Sn", "Sb", "Te", "I", "Xe",
   "Cs", "Ba", "La", "Ce", "Pr", "Nd", "Pm", "Sm", "Eu", "Gd", "Tb", "Dy",
   "Ho", "Er", "Tm", "Yb", "Lu",
   "Hf", "Ta", "W", "Re", "Os", "Ir", "Pt", "Au", "Hg",
   "Tl", "Pb", "Bi", "Po", "At", "Rn",
   "Fr", "Ra", "Ac", "Th", "Pa", "U", "Np", "Pu", "Am", "Cm", "Bk", "Cf",
   "Es", "Fm", "Md", "No", "Lr",
   "Rf", "Db", "Sg", "Bh", "Hs", "Mt", "Ds", "Rg", "Cn", "Nh", "Fl", "Mc",
   "Lv", "Ts", "Og"]

/-- `re.findall(r"[A-Z][a-z]?", part)`. -/
def findSymbols : List Char → List String
  | [] => []
  | [c] => if c.isUpper then [String.mk [c]] else []
  | c :: d :: rest2 =>
    if c.isUpper then
      if d.isLower then String.mk [c, d] :: findSymbols rest2
      else String.mk [c] :: findSymbols (d :: rest2)
    else findSymbols (d :: rest2)

/-- `_is_valid_formula`. -/
def is_valid_formula (candidate : String) : Bool :=
  if candidate = "" then false
  else
    let s := strip_charge (normalize_formula candidate)
    if 40 < s.data.length then false
    else
      (splitOnCharS '·' s.data).all (fun part =>
        ¬ part.isEmpty &&
        (let part2 := part.dropWhile Char.isDigit
         ¬ part2.isEmpty &&
         (let symbols := findSymbols part2
          ¬ symbols.isEmpty &&
          symbols.all (fun sym => elementSymbols.contains sym) &&
          part2.all (fun c => c.isAlphanum || c = '(' || c = ')'))))

/-- `re.fullmatch(r"[A-Z][a-z]?$", cand)`: a bare single element token. -/
def isSingleElementToken (s : String) : Bool :=
  match s.data with
  | [c] => c.isUpper
  | [c, d] => c.isUpper && d.isLower
  | _ => false

/-- `extract_chemical_formulas(text, keep_single_element=False)`: the
candidates found by the scan, normalised, filtered (single bare element
symbols dropped by default, then validity-checked), de-duplicated and
sorted (Python `sorted(set)`). -/
def extract_chemical_formulas (text : String) (keepSingleElement : Bool := false) :
    List String :=
  if text = "" then []
  else
    let cands := (scanFormulas (text.data.length + 1) text.data false).map normalize_formula
    let kept := cands.filter (fun cand =>
      (keepSingleElement || ¬ isSingleElementToken cand) && is_valid_formula cand)
    List.insertionSort strLe (dedupFirst [] kept)

/-! Lemmas about de-duplication and the sorted output. -/

theorem dedupFirst_nodup : ∀ (l seen : List String),
    (dedupFirst seen l).Nodup ∧ ∀ x ∈ dedupFirst seen l, x ∉ seen := by
  intro l
  induction l with
  | nil => intro seen; simp [dedupFirst]
  | cons x xs ih =>
    intro seen
    rw [dedupFirst]
    by_cases hx : x ∈ seen
    · simp only [hx, if_true]
      exact ih seen
    · simp only [hx, if_false]
      obtain ⟨ihn, ihm⟩ := ih (x :: seen)
      refine ⟨List.nodup_cons.mpr ⟨fun hmem => ?_, ihn⟩, fun y hy => ?_⟩
      · exact (ihm x hmem) (List.mem_cons_self x seen)
      · rcases List.mem_cons.mp hy with rfl | hy
        · exact hx
        · intro hys
          exact (ihm y hy) (List.mem_cons_of_mem x hys)

theorem mem_dedupFirst : ∀ (l seen : List String) (x : String),
    x ∈ dedupFirst seen l → x ∈ l := by
  intro l
  induction l with
  | nil => intro seen x h; simp [dedupFirst] at h
  | cons y ys ih =>
    intro seen x h
    rw [dedupFirst] at h
    by_cases hy : y ∈ seen
    · simp only [hy, if_true] at h
      exact List.mem_cons_of_mem y (ih seen x h)
    · simp only [hy, if_false] at h
      rcases List.mem_cons.mp h with rfl | h
      · exact List.mem_cons_self x ys
      · exact List.mem_cons_of_mem y (ih (y :: seen) x h)

/-- Sorting the de-duplicated list gives a strictly sorted list. -/
theorem sortedDedup_pairwise (l : List String) :
    (List.insertionSort strLe (dedupFirst [] l)).Pairwise strLt := by
  have hsorted := List.sorted_insertionSort strLe (dedupFirst [] l)
  have hnodup : (List.insertionSort strLe (dedupFirst [] l)).Nodup :=
    (List.perm_insertionSort strLe (dedupFirst [] l)).nodup_iff.mpr (dedupFirst_nodup l []).1
  exact (List.Pairwise.and hsorted hnodup).imp (fun h => ⟨h.1, h.2⟩)

/-- The extractor's output is strictly sorted (sorted and
duplicate-free) for every input text. -/
theorem extract_chemical_formulas_sorted (text : String) (keep : Bool) :
    (extract_chemical_formulas text keep).Pairwise strLt := by
  unfold extract_chemical_formulas
  by_cases ht : text = ""
  · simp [ht]
  · simp only [ht, if_false]
    exact sortedDedup_pairwise _

/-! ## Claim C4 — extraction output and its order -/

/-- Claim C4 (counterexample): on the example text the extractor does
not return `["CuSO4·5H2O", "Cu(OH)2", "NaOH"]` — the output is sorted,
and `(` sorts before letters. -/
theorem claim4_counterexample_order :
    extract_chemical_formulas "Mix CuSO4·5H2O with NaOH to form Cu(OH)2 precipitate" ≠
      ["CuSO4·5H2O", "Cu(OH)2", "NaOH"] := by decide

/-- Claim C4 (amended): extraction returns a deduplicated list sorted in
code-point lexicographic order for every input, and on the example text
that list is exactly `["Cu(OH)2", "CuSO4·5H2O", "NaOH"]`. -/
theorem claim4_extraction_sorted_dedup :
    (∀ (text : String) (keep : Bool),
        (extract_chemical_formulas text keep).Pairwise strLt) ∧
    extract_chemical_formulas "Mix CuSO4·5H2O with NaOH to form Cu(OH)2 precipitate" =
      ["Cu(OH)2", "CuSO4·5H2O", "NaOH"] :=
  ⟨extract_chemical_formulas_sorted, by decide⟩

/-! ## Claim C5 — bare element symbols are excluded by default -/

/-- Claim C5: with the default configuration no result is a bare
single-element token, and the example text with only bare element
mentions extracts nothing. -/
theorem claim5_single_elements_excluded :
    extract_chemical_formulas "Add Fe and Cu powder" = [] ∧
    (∀ text : String,
        (extract_chemical_formulas text false).all
          (fun s => ¬ isSingleElementToken s) = true) := by
  refine ⟨by decide, fun text => ?_⟩
  rw [List.all_eq_true]
  intro s hs
  unfold extract_chemical_formulas at hs
  by_cases ht : text = ""
  · simp [ht] at hs
  · simp only [ht, if_false] at hs
    have hs2 := (List.perm_insertionSort strLe _).mem_iff.mp hs
    have hs3 := mem_dedupFirst _ [] s hs2
    have hp := List.of_mem_filter hs3
    simp only [Bool.false_or, Bool.and_eq_true] at hp
    exact hp.1

/-! ## LLM output parsing (`llm_rag.py`)

`_select_method_index` and `_classify_synthesis_type` both run
`re.search(r"\x7b.*\x7d", raw, re.DOTALL)` — with the greedy `.*` this spans
from the FIRST opening brace to the LAST closing brace — then
`json.loads` on the span (or on the raw text when there is no span),
falling back on any exception.  `json.loads` is embedded as a small
recursive-descent reader over the JSON subset the service protocol uses
(objects, arrays, strings, integers, booleans, null; floats are out of
scope and reported as errors). -/

/-- A parsed JSON value. -/
inductive JVal where
  | jnull : JVal
  | jbool : Bool → JVal
  | jnum : Int → JVal
  | jstr : String → JVal
  | jarr : List JVal → JVal
  | jobj : List (String × JVal) → JVal
deriving Repr

/-- JSON insignificant whitespace. -/
def skipWs (cs : List Char) : List Char :=
  cs.dropWhile (fun c => c = ' ' || c = '\t' || c = '\n' || c = '\r')

/-- Body of a JSON string after the opening quote (accumulator reversed). -/
def parseStrAux : Nat → List Char → List Char → Except String (String × List Char)
  | 0, _, _ => .error "fuel exhausted"
  | fuel + 1, acc, cs =>
    match cs with
    | [] => .error "Unterminated string"
    | '\\' :: e :: rest =>
      let c := match e with
        | 'n' => '\n'
        | 't' => '\t'
        | 'r' => '\r'
        | other => other
      parseStrAux fuel (c :: acc) rest
    | ['\\'] => .error "Bad escape"
    | '"' :: rest => .ok (String.mk acc.reverse, rest)
    | c :: rest => parseStrAux fuel (c :: acc) rest

/-- Decimal digits to a natural number. -/
def digitsToNat (ds : List Char) : Nat :=
  ds.foldl (fun acc c => acc * 10 + (c.toNat - 48)) 0

/-- A JSON integer literal (floats are rejected as out of scope). -/
def parseNum (cs : List Char) : Except String (Int × List Char) :=
  let neg := match cs with
    | '-' :: _ => true
    | _ => false
  let cs2 := if neg then cs.drop 1 else cs
  let digs := cs2.takeWhile Char.isDigit
  if digs.isEmpty then .error "Expecting value"
  else
    match cs2.drop digs.length with
    | '.' :: _ => .error "float literal out of modelled scope"
    | 'e' :: _ => .error "float literal out of modelled scope"
    | 'E' :: _ => .error "float literal out of modelled scope"
    | rest =>
      .ok ((if neg then -(digitsToNat digs : Int) else (digitsToNat digs : Int)), rest)

/-- The reader's pending work: a value, the members of an object, or the
items of an array (accumulators reversed). -/
inductive JTask where
  | val : List Char → JTask
  | members : List Char → List (String × JVal) → JTask
  | items : List Char → List JVal → JTask

/-- One fuel-indexed recursive-descent reader for all three tasks (fuel
strictly exceeds the remaining input length at every call). -/
def jsonStep : Nat → JTask → Except String (JVal × List Char)
  | 0, _ => .error "fuel exhausted"
  | fuel + 1, .val cs =>
    match skipWs cs with
    | [] => .error "Expecting value"
    | '{' :: rest =>
      match skipWs rest with
      | '}' :: rest2 => .ok (.jobj [], rest2)
      | _ => jsonStep fuel (.members (skipWs rest) [])
    | '[' :: rest =>
      match skipWs rest with
      | ']' :: rest2 => .ok (.jarr [], rest2)
      | _ => jsonStep fuel (.items (skipWs rest) [])
    | '"' :: rest => do
      let (s, r) ← parseStrAux (rest.length + 1) [] rest
      .ok (.jstr s, r)
    | 't' :: rest =>
      if rest.take 3 = "rue".data then .ok (.jbool true, rest.drop 3)
      else .error "Expecting value"
    | 'f' :: rest =>
      if rest.take 4 = "alse".data then .ok (.jbool false, rest.drop 4)
      else .error "Expecting value"
    | 'n' :: rest =>
      if rest.take 3 = "ull".data then .ok (.jnull, rest.drop 3)
      else .error "Expecting value"
    | cs2 => do
      let (n, r) ← parseNum cs2
      .ok (.jnum n, r)
  | fuel + 1, .members cs acc =>
    match skipWs cs with
    | '"' :: rest => do
      let (k, r1) ← parseStrAux (rest.length + 1) [] rest
      match skipWs r1 with
      | ':' :: r2 => do
        let (v, r3) ← jsonStep fuel (.val r2)
        match skipWs r3 with
        | ',' :: r4 => jsonStep fuel (.members r4 ((k, v) :: acc))
        | '}' :: r4 => .ok (.jobj ((k, v) :: acc).reverse, r4)
        | _ => .error "Expecting delimiter"
      | _ => .error "Expecting colon"
    | _ => .error "Expecting property name"
  | fuel + 1, .items cs acc => do
    let (v, r) ← jsonStep fuel (.val cs)
    match skipWs r with
    | ',' :: r2 => jsonStep fuel (.items r2 (v :: acc))
    | ']' :: r2 => .ok (.jarr (v :: acc).reverse, r2)
    | _ => .error "Expecting delimiter"

/-- `json.loads` over the modelled subset: parse one value and require
only whitespace after it. -/
def json_loads (s : String) : Except String JVal :=
  match jsonStep (s.data.length + 2) (.val s.data) with
  | .ok (v, rest) =>
    if (skipWs rest).isEmpty then .ok v else .error "Extra data"
  | .error e => .error e

/-- Python-dict key lookup on parsed object fields (later duplicate keys
overwrite earlier ones, as `json.loads` builds its dict). -/
def lookupJ (fields : List (String × JVal)) (k : String) : Option JVal :=
  (fields.reverse.find? (fun p => p.1 = k)).map (·.2)

/-- `re.search(r"\x7b.*\x7d", raw, re.DOTALL)`: the span from the first
`\x7b` to the last `\x7d` (when one closes after the other opens). -/
def extractBraceSpan (raw : String) : Option String :=
  let cs := raw.data
  match cs.findIdx? (fun c => c = '\x7b') with
  | Option.none => Option.none
  | some i =>
    match cs.reverse.findIdx? (fun c => c = '\x7d') with
    | Option.none => Option.none
    | some jr =>
      let j := cs.length - 1 - jr
      if i < j then some (String.mk ((cs.drop i).take (j - i + 1)))
      else Option.none

/-- Python `int(x)` on the JSON values the selector can receive. -/
def pyIntOf : JVal → Except String Int
  | .jnum n => .ok n
  | .jbool b => .ok (if b then 1 else 0)
  | .jstr s =>
    let t := (trimS s).data
    let neg := match t with
      | '-' :: _ => true
      | _ => false
    let ds := match t with
      | '-' :: r => r
      | '+' :: r => r
      | r => r
    if ¬ ds.isEmpty && ds.all Char.isDigit then
      .ok (if neg then -(digitsToNat ds : Int) else (digitsToNat ds : Int))
    else .error "invalid literal for int()"
  | _ => .error "int() argument must be a number or string"

/-- `LLMSynthesisRAG._select_method_index`: parse the brace span (or the
raw text), read `method_index` (1-based), clamp to the method range;
any failure falls back to the first method (internal index 0). -/
def select_method_index (raw : String) (numMethods : Nat) : Int :=
  let target := (extractBraceSpan raw).getD raw
  match json_loads target with
  | .ok (.jobj fields) =>
    match lookupJ fields "method_index" with
    | some jv =>
      match pyIntOf jv with
      | .ok idx1 => max 0 (min ((numMethods : Int) - 1) (idx1 - 1))
      | .error _ => 0
    | Option.none => 0
  | _ => 0

/-- Fuel-indexed conversion of parsed JSON values to Python values. -/
def jvalToPyF : Nat → JVal → PyVal
  | 0, _ => .none
  | _ + 1, .jnull => .none
  | _ + 1, .jbool b => .bool b
  | _ + 1, .jnum n => .int n
  | _ + 1, .jstr s => .str s
  | fuel + 1, .jarr xs => .list (xs.map (jvalToPyF fuel))
  | fuel + 1, .jobj fs => .dict (fs.map (fun p => (p.1, jvalToPyF fuel p.2)))

/-- The classifier's deterministic fallback dict. -/
def fallbackClassification : PyDict :=
  [("synthesis_type", .str "unknown"), ("confidence", .str "none"),
   ("reason", .str "분류 실패")]

/-- `LLMSynthesisRAG._classify_synthesis_type` result handling: parse
the brace span (or raw text); the parsed object is returned as-is when
it has the three fields the success path reads, else the fallback. -/
def classify_synthesis_type (raw : String) : PyDict :=
  let target := (extractBraceSpan raw).getD raw
  match json_loads target with
  | .ok (.jobj fields) =>
    if (lookupJ fields "synthesis_type").isSome &&
       (lookupJ fields "confidence").isSome &&
       (lookupJ fields "reason").isSome then
      fields.map (fun p => (p.1, jvalToPyF (raw.data.length + 1) p.2))
    else fallbackClassification
  | _ => fallbackClassification

/-! ## Claim C8 — parser extraction and fallback -/

/-- Claim C8 (counterexample): the greedy span runs from the first
opening brace to the LAST closing brace, so a stray trailing brace makes
the span unparseable and forces the fallback to the first variant
(internal index 0) even though the first well-formed bracketed object —
which parses to `method_index = 2` and alone selects internal index 1 —
is present in the text. -/
theorem claim8_counterexample_greedy_span :
    select_method_index "\x7b\"method_index\": 2\x7d x\x7d" 3 = 0 ∧
    select_method_index "\x7b\"method_index\": 2\x7d x" 3 = 1 ∧
    json_loads "\x7b\"method_index\": 2\x7d" = .ok (.jobj [("method_index", .jnum 2)]) :=
  ⟨by rfl, by rfl, by rfl⟩

/-- Claim C8 (amended): the parsers extract the span from the first
opening brace to the last closing brace (not the first well-formed
object); the selector is total and always returns an in-range index,
falling back to the first variant on any parse failure, and the
classifier falls back to `unknown`/`none`; with benign surrounding text
a single object is extracted and used. -/
theorem claim8_amended_parsing :
    (∀ (raw : String) (numMethods : Nat), 1 ≤ numMethods →
        0 ≤ select_method_index raw numMethods ∧
        select_method_index raw numMethods < (numMethods : Int)) ∧
    select_method_index "I pick \x7b\"method_index\": 2, \"reason\": \"short\"\x7d ok" 3 = 1 ∧
    select_method_index "no structured output" 3 = 0 ∧
    classify_synthesis_type
        "x \x7b\"synthesis_type\": \"hydrothermal\", \"confidence\": \"high\", \"reason\": \"autoclave\"\x7d y" =
      [("synthesis_type", .str "hydrothermal"), ("confidence", .str "high"),
       ("reason", .str "autoclave")] ∧
    classify_synthesis_type "garbled" = fallbackClassification := by
  refine ⟨fun raw numMethods hn => ?_, by rfl, by rfl, by rfl, by rfl⟩
  simp only [select_method_index]
  cases h1 : json_loads ((extractBraceSpan raw).getD raw) with
  | error e => simp only [h1]; omega
  | ok v =>
    cases v with
    | jnull => simp only [h1]; omega
    | jbool b => simp only [h1]; omega
    | jnum n => simp only [h1]; omega
    | jstr s => simp only [h1]; omega
    | jarr xs => simp only [h1]; omega
    | jobj fields =>
      simp only [h1]
      cases h2 : lookupJ fields "method_index" with
      | none => simp only [h2]; omega
      | some jv =>
        simp only [h2]
        cases h3 : pyIntOf jv with
        | error e => simp only [h3]; omega
        | ok idx1 =>
          simp only [h3]
          refine ⟨le_max_left 0 _, ?_⟩
          exact max_lt (by omega) (lt_of_le_of_lt (min_le_left _ _) (by omega))

/-- Witness for the amended C8 range bound at a concrete input. -/
theorem claim8_amended_parsing_witness :
    0 ≤ select_method_index "z" 3 ∧ select_method_index "z" 3 < ((3 : Nat) : Int) :=
  claim8_amended_parsing.1 "z" 3 (by decide)
